import Mathlib

/-!
Shallow embedding of the KPI-dashboard ingestion and aggregation core
(`kpiDashboard1202.py`).

Modelling conventions:
* Python strings are `List Char` (`Str`); `str.upper` is embedded as an
  ASCII case map, `str.split('_')[0]` as `takeWhile (· ≠ '_')`,
  `str.replace` as leftmost non-overlapping occurrence removal, and
  `str.endswith` as a suffix test.
* A CSV cell is a `Cell`: a parsed timestamp, a rational number (the
  dashboard's float values carry no rounding-sensitive arithmetic, so
  rationals embed them exactly), or `null` (pandas `NaN` / missing).
* `NaN` results of aggregations are `Option.none`; the one place where
  IEEE-754 division can produce an infinity (the load-factor quotient)
  returns an explicit `FloatVal` with `nan`/`posInf`/`negInf`.
* `pd.merge(..., how='outer')` is embedded key-wise; pandas sorts the
  result rows lexicographically by key, which no property below depends
  on, so the embedding keeps left-table rows first and unmatched
  right-table rows afterwards.  Rows are treated as a multiset
  throughout.
-/

abbrev Str := List Char

/-- The ASCII lower-to-upper case table. -/
def upMap : List (Char × Char) :=
  [('a', 'A'), ('b', 'B'), ('c', 'C'), ('d', 'D'), ('e', 'E'), ('f', 'F'),
   ('g', 'G'), ('h', 'H'), ('i', 'I'), ('j', 'J'), ('k', 'K'), ('l', 'L'),
   ('m', 'M'), ('n', 'N'), ('o', 'O'), ('p', 'P'), ('q', 'Q'), ('r', 'R'),
   ('s', 'S'), ('t', 'T'), ('u', 'U'), ('v', 'V'), ('w', 'W'), ('x', 'X'),
   ('y', 'Y'), ('z', 'Z')]

/-- ASCII upper-casing of one character, the effect of `str.upper` on the
region tokens appearing in the data-file names. -/
def upChar (c : Char) : Char :=
  ((upMap.find? (fun p => p.1 = c)).map Prod.snd).getD c

/-- `str.upper()`. -/
def strToUpper (s : Str) : Str := s.map upChar

/-- `os.path.basename(file).split('_')[0]`: everything before the first
underscore (the whole name when there is none). -/
def leadingToken (s : Str) : Str := s.takeWhile (fun c => c ≠ '_')

/-- `str.endswith(suf)`. -/
def strEndsWith (s suf : Str) : Bool := suf.reverse.isPrefixOf s.reverse

/-- The region-column suffix `"_MW"`. -/
def mwSuf : Str := ("_MW").toList

/-- The canonical timestamp column name `"Datetime"`. -/
def dtName : Str := ("Datetime").toList

/-- The generic value column name `"MW"`. -/
def mwName : Str := ("MW").toList

/-- `col.replace('_MW', '')`: remove every leftmost non-overlapping
occurrence of `"_MW"`, the way `get_selected_region` strips the suffix. -/
def replaceMW : Str → Str
  | [] => []
  | '_' :: 'M' :: 'W' :: rest => replaceMW rest
  | c :: cs => c :: replaceMW cs

/-- Index of the first column with the given name (list length when the
name is absent); how pandas label-based selection resolves a name to a
column for tables with pairwise-distinct labels. -/
def idxOfA (x : Str) : List Str → Nat
  | [] => 0
  | c :: cs => if c = x then 0 else idxOfA x cs + 1

/-- A parsed timestamp (`pd.to_datetime` value): calendar fields plus the
hour of day.  Minutes/seconds are always zero in hourly data and carry no
behaviour in the program, so they are not modelled. -/
structure Datetime where
  year : Int
  month : Nat
  day : Nat
  hour : Nat
deriving DecidableEq, Repr

/-- A calendar date (`Datetime.dt.date`). -/
structure Date where
  year : Int
  month : Nat
  day : Nat
deriving DecidableEq, Repr

/-- Chronological `≤` on dates, as Python compares `date` objects. -/
def dateLE (a b : Date) : Bool :=
  decide (a.year < b.year) ||
    (decide (a.year = b.year) &&
      (decide (a.month < b.month) ||
        (decide (a.month = b.month) && decide (a.day ≤ b.day))))

/-- One table cell: a parsed timestamp, a numeric value, or `NaN`/missing. -/
inductive Cell where
  | dt (d : Datetime)
  | num (q : ℚ)
  | null
deriving DecidableEq, Repr

/-- One source CSV file: base name, header, and rows of cells (each row
aligned with the header positionally). -/
structure RawFile where
  name : Str
  cols : List Str
  rows : List (List Cell)
deriving DecidableEq, Repr

/-- One canonicalized per-region table: the `(Datetime, <REGION>_MW)`
selection of a source file.  `rows` holds `(timestamp cell, value cell)`. -/
structure RegionTable where
  region : Str
  rows : List (Cell × Cell)
deriving DecidableEq, Repr

/-- The wide table built by the iterated outer merge: the `Datetime` key
cell paired with one value cell per region column, columns named in
`cols` (in merge order). -/
structure MergedTable where
  cols : List Str
  rows : List (Cell × List Cell)
deriving DecidableEq, Repr

/-- The column-fixing step of `load_data` (lines 50–54): exactly two
columns are renamed positionally to `Datetime, MW`; otherwise the first
column whose name ends with `_MW` is renamed to `MW`; otherwise the
header is left unchanged. -/
def fixCols (cols : List Str) : List Str :=
  if cols.length = 2 then [dtName, mwName]
  else
    match cols.find? (fun c => strEndsWith c mwSuf) with
    | some mw => cols.map (fun c => if c = mw then mwName else c)
    | none => cols

/-- `mw_col = 'MW' if 'MW' in temp_df.columns else temp_df.columns[1]`
(line 60); `none` when there is no second column either. -/
def mwColOf (cols : List Str) : Option Str :=
  if mwName ∈ cols then some mwName else cols[1]?

/-- The canonicalized table extracted from a file once the timestamp
column index `di` and value column index `vi` are known: the region is
the upper-cased leading token of the file name (line 57), and each row
keeps the two selected cells (lines 61–62). -/
def loadedTable (f : RawFile) (di vi : Nat) : RegionTable :=
  { region := strToUpper (leadingToken f.name)
  , rows := f.rows.map (fun r => (r.getD di Cell.null, r.getD vi Cell.null)) }

/-- Loading one source file (the body of the `for file in data_files`
loop, lines 42–67).  A missing second column surfaces the `IndexError`
of `temp_df.columns[1]`; a missing `Datetime` label surfaces the
`KeyError` of `temp_df[['Datetime', mw_col]]`.  Either exception is
caught by the caller and the file is skipped. -/
def loadOne (f : RawFile) : Except Str RegionTable :=
  match mwColOf (fixCols f.cols) with
  | none => .error (("IndexError").toList)
  | some mw =>
    if dtName ∈ fixCols f.cols then
      .ok (loadedTable f (idxOfA dtName (fixCols f.cols)) (idxOfA mw (fixCols f.cols)))
    else
      .error (("KeyError: Datetime").toList)

/-- The list `dfs` of successfully loaded tables: files whose load raised
are warned about and skipped (lines 64–67). -/
def successes (fs : List RawFile) : List RegionTable :=
  fs.filterMap (fun f => (loadOne f).toOption)

/-- A one-region table viewed as a wide table with a single value column
`<REGION>_MW`. -/
def toMerged (t : RegionTable) : MergedTable :=
  { cols := [t.region ++ mwSuf]
  , rows := t.rows.map (fun r => (r.1, [r.2])) }

/-- `pd.merge(df, other_df, on='Datetime', how='outer')` (line 76): every
left row is joined with each right row sharing its key (null-padded when
none exists), and right rows whose key never occurs on the left are
appended null-padded on the left.  A non-key column name present in both
frames is renamed with pandas' default suffixes: `_x` on the left copy
and `_y` on the right copy; non-colliding names are kept.  Row order is
modelled as left-then-right; pandas additionally sorts by key, which no
property below uses. -/
def mergeOuter (t u : MergedTable) : MergedTable :=
  { cols :=
      t.cols.map (fun c => if c ∈ u.cols then c ++ ("_x").toList else c)
      ++ u.cols.map (fun c => if c ∈ t.cols then c ++ ("_y").toList else c)
  , rows :=
      (t.rows.flatMap (fun r =>
        let ms := u.rows.filter (fun r2 => r2.1 = r.1)
        if ms.isEmpty then [(r.1, r.2 ++ List.replicate u.cols.length Cell.null)]
        else ms.map (fun r2 => (r.1, r.2 ++ r2.2))))
      ++ ((u.rows.filter (fun r2 => ¬ t.rows.any (fun r => r.1 = r2.1))).map
          (fun r2 => (r2.1, List.replicate t.cols.length Cell.null ++ r2.2))) }

/-- `df = dfs[0]` followed by the iterated merge over `dfs[1:]`
(lines 73–76); `none` when no file loaded. -/
def mergedOf (rts : List RegionTable) : Option MergedTable :=
  match rts.map toMerged with
  | [] => none
  | t :: ts => some (ts.foldl mergeOuter t)

/-- The whole ingestion: load every file, skip failures, and merge; with
zero successes the app reports "No data files could be loaded!" and
stops (lines 77–79). -/
def loadData (fs : List RawFile) : Except Str MergedTable :=
  match mergedOf (successes fs) with
  | none => .error (("No data files could be loaded!").toList)
  | some m => .ok m

/-- Days since 1970-01-01 of a calendar date (civil-calendar conversion,
the arithmetic underlying `pandas` timestamp fields). -/
def daysFromCivil (y : Int) (m d : Nat) : Int :=
  let y' : Int := if m ≤ 2 then y - 1 else y
  let era : Int := (if 0 ≤ y' then y' else y' - 399) / 400
  let yoe : Nat := (y' - era * 400).toNat
  let mp : Nat := (m + 9) % 12
  let doy : Nat := (153 * mp + 2) / 5 + d - 1
  let doe : Nat := yoe * 365 + yoe / 4 - yoe / 100 + doy
  era * 146097 + (doe : Int) - 719468

/-- `Datetime.dt.dayofweek`: Monday = 0 … Sunday = 6. -/
def dayOfWeekOf (d : Datetime) : Nat :=
  ((daysFromCivil d.year d.month d.day + 3) % 7).toNat

/-- One row of the normalized table after the calendar-field derivation
(lines 82–87): the parsed timestamp, its derived fields, and one value
cell per region column. -/
structure NRow where
  datetime : Datetime
  date : Date
  hour : Nat
  month : Nat
  year : Int
  dow : Nat
  vals : List Cell
deriving DecidableEq, Repr

/-- The normalized wide table consumed by all aggregations: region value
column names (in merge order) and derived rows. -/
structure NormalizedTable where
  cols : List Str
  rows : List NRow
deriving DecidableEq, Repr

/-- Derivation of one normalized row from a merged row; `none` when the
merge key is not a timestamp cell. -/
def deriveRow (r : Cell × List Cell) : Option NRow :=
  match r.1 with
  | Cell.dt d =>
      some { datetime := d
           , date := ⟨d.year, d.month, d.day⟩
           , hour := d.hour
           , month := d.month
           , year := d.year
           , dow := dayOfWeekOf d
           , vals := r.2 }
  | _ => none

/-- `pd.to_datetime` plus the five derived calendar columns (lines 82–87);
fails if some merge key is not a timestamp cell. -/
def deriveRows (m : MergedTable) : Option NormalizedTable :=
  (m.rows.mapM deriveRow).map (fun rows => { cols := m.cols, rows := rows })

/-- The column labels of the derived dataframe, in pandas order: the key,
the region value columns, then the five derived calendar columns. -/
def allColumns (m : MergedTable) : List Str :=
  dtName :: m.cols ++
    [("Hour").toList, ("Date").toList, ("Month").toList, ("Year").toList,
     ("Day_of_week").toList]

/-- `[col for col in df.columns if col.endswith('_MW')]` (line 94). -/
def regionColumns (cols : List Str) : List Str :=
  cols.filter (fun c => strEndsWith c mwSuf)

/-- `[col.replace('_MW', '') for col in region_columns]` (line 96). -/
def regionNames (cols : List Str) : List Str :=
  (regionColumns cols).map replaceMW

/-- The column returned by `get_selected_region` for the default
selection (`index=0`): first region name plus the suffix (line 104). -/
def defaultRegionColumn (cols : List Str) : Str :=
  ((regionNames cols).headD []) ++ mwSuf

/-- The value cell of row `r` in the region column named `col`. -/
def cellOf (nt : NormalizedTable) (col : Str) (r : NRow) : Cell :=
  r.vals.getD (idxOfA col nt.cols) Cell.null

/-- The date-range mask and filter (lines 123–124): both bounds
inclusive. -/
def filteredRows (nt : NormalizedTable) (s e : Date) : List NRow :=
  nt.rows.filter (fun r => dateLE s r.date && dateLE r.date e)

/-- The numeric entries of a cell column; pandas aggregations skip
`NaN`/missing entries. -/
def cellsToVals (cs : List Cell) : List ℚ :=
  cs.filterMap (fun c => match c with | Cell.num q => some q | _ => none)

/-- The mean of a rational list (`0/0` never occurs: callers guard
emptiness). -/
def meanVal (l : List ℚ) : ℚ := l.sum / (l.length : ℚ)

/-- `Series.mean()`: `NaN` (i.e. `none`) on an all-`NaN`/empty series. -/
def listMean? (l : List ℚ) : Option ℚ :=
  if l = [] then none else some (meanVal l)

/-- `Series.max()`: `NaN` (i.e. `none`) on an all-`NaN`/empty series. -/
def listMax? : List ℚ → Option ℚ
  | [] => none
  | q :: qs =>
    match listMax? qs with
    | none => some q
    | some m => some (max q m)

/-- The selected-region cells of the filtered window
(`filtered_df[selected_column]`). -/
def colCells (nt : NormalizedTable) (col : Str) (s e : Date) : List Cell :=
  (filteredRows nt s e).map (cellOf nt col)

/-- The non-null selected-region values of the filtered window. -/
def colVals (nt : NormalizedTable) (col : Str) (s e : Date) : List ℚ :=
  cellsToVals (colCells nt col s e)

/-- KPI 1, `filtered_df[selected_column].mean()` (line 131). -/
def avgConsumption (nt : NormalizedTable) (col : Str) (s e : Date) : Option ℚ :=
  listMean? (colVals nt col s e)

/-- KPI 2, `filtered_df[selected_column].max()` (line 139). -/
def peakConsumption (nt : NormalizedTable) (col : Str) (s e : Date) : Option ℚ :=
  listMax? (colVals nt col s e)

/-- A float64 result that may be `NaN` or an infinity. -/
inductive FloatVal where
  | fin (q : ℚ)
  | nan
  | posInf
  | negInf
deriving DecidableEq, Repr

/-- IEEE-754 semantics of `(avg / peak) * 100` on float64 operands where
`none` stands for `NaN`: `NaN` propagates; a zero denominator gives
`NaN` for a zero numerator and a signed infinity otherwise. -/
def floatLF (a p : Option ℚ) : FloatVal :=
  match a, p with
  | some a, some p =>
      if p = 0 then
        if a = 0 then FloatVal.nan
        else if 0 < a then FloatVal.posInf else FloatVal.negInf
      else FloatVal.fin (a / p * 100)
  | _, _ => FloatVal.nan

/-- KPI 3, `load_factor = (avg_consumption / peak_consumption) * 100`
(line 147). -/
def loadFactorKPI (nt : NormalizedTable) (col : Str) (s e : Date) : FloatVal :=
  floatLF (avgConsumption nt col s e) (peakConsumption nt col s e)

/-- Insert into a `le`-sorted list (auxiliary to the key sort performed
by `groupby`). -/
def insertB {K : Type} (le : K → K → Bool) (x : K) : List K → List K
  | [] => [x]
  | y :: ys => if le x y then x :: y :: ys else y :: insertB le x ys

/-- Insertion sort by a boolean `le` (the ascending key sort `groupby`
applies to its result index). -/
def sortB {K : Type} (le : K → K → Bool) : List K → List K
  | [] => []
  | x :: xs => insertB le x (sortB le xs)

/-- `filtered.groupby(key)[col].mean()`: one output row per distinct key
present in the input, keys sorted ascending, value the per-group mean of
the non-null cells. -/
def groupMeansBy {K : Type} [DecidableEq K] (le : K → K → Bool)
    (key : NRow → K) (val : NRow → Cell) (rows : List NRow) :
    List (K × Option ℚ) :=
  (sortB le ((rows.map key).dedup)).map
    (fun k => (k, listMean? (cellsToVals ((rows.filter (fun r => key r = k)).map val))))

/-- Boolean `≤` on `Nat` keys. -/
def natLeB (a b : Nat) : Bool := decide (a ≤ b)

/-- Boolean `≤` on `Int` keys. -/
def intLeB (a b : Int) : Bool := decide (a ≤ b)

/-- Chart 1, `filtered_df.groupby('Date')[selected_column].mean()`
(line 159). -/
def dailyConsumption (nt : NormalizedTable) (col : Str) (s e : Date) :
    List (Date × Option ℚ) :=
  groupMeansBy dateLE (fun r => r.date) (cellOf nt col) (filteredRows nt s e)

/-- Chart 2, `filtered_df.groupby('Hour')[selected_column].mean()`
(line 178). -/
def hourlyAvg (nt : NormalizedTable) (col : Str) (s e : Date) :
    List (Nat × Option ℚ) :=
  groupMeansBy natLeB (fun r => r.hour) (cellOf nt col) (filteredRows nt s e)

/-- Chart 3's data, grouped by month.  Modelled from the spec: the
grouping itself happens inside the box-plot collaborator
(`px.box(filtered_df, x='Month', ...)`, line 199), which per §4.3
exposes the full per-month value distribution. -/
def monthlyDistribution (nt : NormalizedTable) (col : Str) (s e : Date) :
    List (Nat × List Cell) :=
  (sortB natLeB (((filteredRows nt s e).map (fun r => r.month)).dedup)).map
    (fun k => (k, ((filteredRows nt s e).filter (fun r => r.month = k)).map (cellOf nt col)))

/-- Chart 4, `filtered_df.groupby('Day_of_week')[selected_column].mean()`
(line 213). -/
def dowAvg (nt : NormalizedTable) (col : Str) (s e : Date) :
    List (Nat × Option ℚ) :=
  groupMeansBy natLeB (fun r => r.dow) (cellOf nt col) (filteredRows nt s e)

/-- The year-over-year aggregate, produced only when the filtered window
spans more than one distinct year (`len(years) > 1`, lines 226–229). -/
def yearlyAvgOpt (nt : NormalizedTable) (col : Str) (s e : Date) :
    Option (List (Int × Option ℚ)) :=
  if 1 < (((filteredRows nt s e).map (fun r => r.year)).dedup).length then
    some (groupMeansBy intLeB (fun r => r.year) (cellOf nt col) (filteredRows nt s e))
  else none

/-! ### String helper lemmas -/

theorem strEndsWith_append (r suf : Str) : strEndsWith (r ++ suf) suf = true := by
  have h : suf.reverse <+: (r ++ suf).reverse := by
    rw [List.reverse_append]; exact List.prefix_append _ _
  rw [strEndsWith, List.isPrefixOf_iff_prefix]
  exact h

theorem replaceMW_cons_ne (c : Char) (L : Str) (h : c ≠ '_') :
    replaceMW (c :: L) = c :: replaceMW L := by
  rw [replaceMW.eq_def]
  split
  · simp_all
  · rename_i heq; injection heq with h1 _; exact absurd h1 h
  · rename_i heq; injection heq with h1 h2; rw [h1, h2]

theorem replaceMW_strip (r : Str) (h : '_' ∉ r) : replaceMW (r ++ mwSuf) = r := by
  induction r with
  | nil => rfl
  | cons c cs ih =>
      have hc : c ≠ '_' := fun hc => h (hc ▸ List.mem_cons_self c cs)
      have hcs : '_' ∉ cs := fun hm => h (List.mem_cons_of_mem c hm)
      rw [List.cons_append, replaceMW_cons_ne c (cs ++ mwSuf) hc, ih hcs]

theorem upChar_ne_underscore (c : Char) (h : c ≠ '_') : upChar c ≠ '_' := by
  unfold upChar
  rcases hf : upMap.find? (fun p => p.1 = c) with _ | p
  · rw [hf]; simpa using h
  · have hp := List.mem_of_find?_eq_some hf
    have hne : ∀ x ∈ upMap, x.2 ≠ '_' := by decide
    rw [hf]; simpa using hne p hp

theorem underscore_not_mem_strToUpper_leadingToken (s : Str) :
    '_' ∉ strToUpper (leadingToken s) := by
  intro hm
  rcases List.mem_map.mp hm with ⟨c, hc, hup⟩
  have hne : c ≠ '_' := by
    have := List.mem_takeWhile_imp hc
    simpa using this
  exact upChar_ne_underscore c hne hup

/-! ### Date-order helper lemmas -/

theorem dateLE_trans (a b c : Date) (h1 : dateLE a b = true) (h2 : dateLE b c = true) :
    dateLE a c = true := by
  simp only [dateLE, Bool.or_eq_true, Bool.and_eq_true, decide_eq_true_eq] at *
  omega

/-! ### Series aggregation helper lemmas -/

theorem listMax?_eq_none_iff {l : List ℚ} : listMax? l = none ↔ l = [] := by
  cases l with
  | nil => simp [listMax?]
  | cons a as =>
      simp only [listMax?]
      rcases h : listMax? as with _ | x <;> simp [h]

theorem listMax?_spec {l : List ℚ} {m : ℚ} (h : listMax? l = some m) :
    m ∈ l ∧ ∀ x ∈ l, x ≤ m := by
  induction l generalizing m with
  | nil => simp [listMax?] at h
  | cons q qs ih =>
      rcases hqs : listMax? qs with _ | m'
      · simp only [listMax?, hqs, Option.some.injEq] at h
        subst h
        have hqsnil : qs = [] := listMax?_eq_none_iff.mp hqs
        subst hqsnil
        exact ⟨List.mem_singleton_self _, by simp⟩
      · simp only [listMax?, hqs, Option.some.injEq] at h
        subst h
        rcases ih hqs with ⟨hmem, hle⟩
        constructor
        · rcases le_total q m' with hq | hq
          · simp only [max_eq_right hq]
            exact List.mem_cons_of_mem q hmem
          · simp [max_eq_left hq]
        · intro x hx
          rcases List.mem_cons.mp hx with hx | hx
          · exact hx ▸ le_max_left _ _
          · exact le_trans (hle x hx) (le_max_right _ _)

theorem listMax?_ne_none {l : List ℚ} (h : l ≠ []) : (listMax? l).isSome = true := by
  cases l with
  | nil => exact absurd rfl h
  | cons q qs =>
      simp only [listMax?]
      rcases h' : listMax? qs with _ | m <;> simp [h']

/-! ### Sorting helper lemmas -/

theorem mem_insertB {K : Type} (le : K → K → Bool) (x y : K) (l : List K) :
    y ∈ insertB le x l ↔ y = x ∨ y ∈ l := by
  induction l with
  | nil => simp [insertB]
  | cons z zs ih =>
      simp only [insertB]
      split
      · simp [or_comm, or_assoc, or_left_comm]
      · simp only [List.mem_cons, ih]
        tauto

theorem perm_insertB {K : Type} (le : K → K → Bool) (x : K) (l : List K) :
    (insertB le x l).Perm (x :: l) := by
  induction l with
  | nil => simp [insertB]
  | cons z zs ih =>
      simp only [insertB]
      split
      · exact List.Perm.refl _
      · exact (List.Perm.cons z ih).trans (List.Perm.swap x z zs)

theorem perm_sortB {K : Type} (le : K → K → Bool) (l : List K) :
    (sortB le l).Perm l := by
  induction l with
  | nil => exact List.Perm.refl _
  | cons x xs ih =>
      exact (perm_insertB le x (sortB le xs)).trans (List.Perm.cons x ih)

theorem mem_sortB {K : Type} (le : K → K → Bool) (y : K) (l : List K) :
    y ∈ sortB le l ↔ y ∈ l :=
  (perm_sortB le l).mem_iff

theorem pairwise_insertB {K : Type} (le : K → K → Bool)
    (htot : ∀ a b, le a b = true ∨ le b a = true)
    (htr : ∀ a b c, le a b = true → le b c = true → le a c = true)
    (x : K) (l : List K) (hl : l.Pairwise (fun a b => le a b = true)) :
    (insertB le x l).Pairwise (fun a b => le a b = true) := by
  induction l with
  | nil => simp [insertB]
  | cons z zs ih =>
      rcases List.pairwise_cons.mp hl with ⟨hz, hzs⟩
      simp only [insertB]
      split
      · rename_i hxz
        refine List.pairwise_cons.mpr ⟨?_, hl⟩
        intro b hb
        rcases List.mem_cons.mp hb with hb | hb
        · exact hb ▸ hxz
        · exact htr x z b hxz (hz b hb)
      · rename_i hxz
        have hzx : le z x = true := by
          rcases htot x z with h | h
          · exact absurd h hxz
          · exact h
        refine List.pairwise_cons.mpr ⟨?_, ih hzs⟩
        intro b hb
        rcases (mem_insertB le x b zs).mp hb with hb | hb
        · exact hb ▸ hzx
        · exact hz b hb

theorem pairwise_sortB {K : Type} (le : K → K → Bool)
    (htot : ∀ a b, le a b = true ∨ le b a = true)
    (htr : ∀ a b c, le a b = true → le b c = true → le a c = true)
    (l : List K) : (sortB le l).Pairwise (fun a b => le a b = true) := by
  induction l with
  | nil => simp [sortB]
  | cons x xs ih => exact pairwise_insertB le htot htr x (sortB le xs) ih

/-! ### Grouping partition helper lemmas -/

theorem length_filter_key_eq_count {α K : Type} [DecidableEq K]
    (key : α → K) (f : List α) (k : K) :
    (f.filter (fun r => key r = k)).length = (f.map key).count k := by
  rw [List.count, List.countP_map, ← List.countP_eq_length_filter]
  refine List.countP_congr ?_
  intro a _
  simp [Function.comp]

theorem sum_group_sizes {α K : Type} [DecidableEq K]
    (le : K → K → Bool) (key : α → K) (f : List α) :
    ((sortB le ((f.map key).dedup)).map
        (fun k => (f.filter (fun r => key r = k)).length)).sum = f.length := by
  have hperm : ((sortB le ((f.map key).dedup)).map
      (fun k => (f.filter (fun r => key r = k)).length)).Perm
      (((f.map key).dedup).map (fun k => (f.filter (fun r => key r = k)).length)) :=
    (perm_sortB le ((f.map key).dedup)).map _
  rw [hperm.sum_eq]
  have : (((f.map key).dedup).map (fun k => (f.filter (fun r => key r = k)).length)) =
      (((f.map key).dedup).map (fun k => (f.map key).count k)) := by
    refine List.map_congr_left ?_
    intro k _
    exact length_filter_key_eq_count key f k
  rw [this, List.sum_map_count_dedup_eq_length, List.length_map]

/-! ### Concrete sample data used by witnesses and counterexamples -/

/-- 2021-01-01 00:00. -/
def dtA : Datetime := ⟨2021, 1, 1, 0⟩

/-- 2021-01-01 01:00. -/
def dtB : Datetime := ⟨2021, 1, 1, 1⟩

/-- 2022-06-15 05:00. -/
def dtC : Datetime := ⟨2022, 6, 15, 5⟩

/-- 2021-01-01. -/
def dateA : Date := ⟨2021, 1, 1⟩

/-- 2022-06-15. -/
def dateC : Date := ⟨2022, 6, 15⟩

/-- The selected region column `"PJM_MW"`. -/
def pjmCol : Str := ("PJM_MW").toList

/-- Row at 2021-01-01 00:00 with value 1. -/
def rowA : NRow := ⟨dtA, dateA, 0, 1, 2021, 4, [Cell.num 1]⟩

/-- Row at 2021-01-01 01:00 with value 3. -/
def rowB : NRow := ⟨dtB, dateA, 1, 1, 2021, 4, [Cell.num 3]⟩

/-- Row at 2022-06-15 05:00 with value 2. -/
def rowC : NRow := ⟨dtC, dateC, 5, 6, 2022, 2, [Cell.num 2]⟩

/-- A three-row one-region normalized table spanning two years. -/
def ntSample : NormalizedTable := ⟨[pjmCol], [rowA, rowB, rowC]⟩

/-- A one-row table whose only value is zero. -/
def ntZero : NormalizedTable := ⟨[pjmCol], [⟨dtA, dateA, 0, 1, 2021, 4, [Cell.num 0]⟩]⟩

/-! ### Claim theorems -/

/-- Claim C6: for every normalized table and date pair, the filtered set
contains exactly the rows whose date satisfies
`start_date ≤ date ≤ end_date` (both bounds inclusive), and when
`start_date > end_date` the filtered set is empty, with no error. -/
theorem claim_C6_filter_window (nt : NormalizedTable) (s e : Date) :
    (∀ r, r ∈ filteredRows nt s e ↔
        r ∈ nt.rows ∧ dateLE s r.date = true ∧ dateLE r.date e = true)
    ∧ (dateLE s e = false → filteredRows nt s e = []) := by
  constructor
  · intro r
    simp [filteredRows, List.mem_filter, and_assoc]
  · intro hse
    rw [filteredRows, List.filter_eq_nil_iff]
    intro r _ hcontra
    rw [Bool.and_eq_true] at hcontra
    have htrans := dateLE_trans s r.date e hcontra.1 hcontra.2
    rw [htrans] at hse
    exact Bool.true_eq_false.mp hse

/-- Witness for C6: an inverted window over the sample table filters to
the empty list. -/
theorem claim_C6_witness : filteredRows ntSample dateC dateA = [] :=
  (claim_C6_filter_window ntSample dateC dateA).2 (by decide)

/-- Claim C7: the year-over-year aggregate is present exactly when the
filtered window contains more than one distinct year (equivalently, two
rows with different years), and absent otherwise. -/
theorem claim_C7_yearly_presence (nt : NormalizedTable) (col : Str) (s e : Date) :
    ((yearlyAvgOpt nt col s e).isSome = true ↔
        1 < ((filteredRows nt s e).map (fun r => r.year)).toFinset.card)
    ∧ ((yearlyAvgOpt nt col s e).isSome = true ↔
        ∃ r1 ∈ filteredRows nt s e, ∃ r2 ∈ filteredRows nt s e, r1.year ≠ r2.year) := by
  have hdedup : (yearlyAvgOpt nt col s e).isSome = true ↔
      1 < ((filteredRows nt s e).map (fun r => r.year)).dedup.length := by
    rw [yearlyAvgOpt]
    split
    · rename_i h; simpa using h
    · rename_i h; simpa using h
  have hcard : ((filteredRows nt s e).map (fun r => r.year)).toFinset.card
      = ((filteredRows nt s e).map (fun r => r.year)).dedup.length :=
    List.card_toFinset _
  have hfin : 1 < ((filteredRows nt s e).map (fun r => r.year)).toFinset.card ↔
      ∃ r1 ∈ filteredRows nt s e, ∃ r2 ∈ filteredRows nt s e, r1.year ≠ r2.year := by
    rw [Finset.one_lt_card]
    constructor
    · rintro ⟨y1, hy1, y2, hy2, hne⟩
      rw [List.mem_toFinset] at hy1 hy2
      rcases List.mem_map.mp hy1 with ⟨r1, hr1, rfl⟩
      rcases List.mem_map.mp hy2 with ⟨r2, hr2, rfl⟩
      exact ⟨r1, hr1, r2, hr2, hne⟩
    · rintro ⟨r1, hr1, r2, hr2, hne⟩
      exact ⟨r1.year, List.mem_toFinset.mpr (List.mem_map_of_mem _ hr1),
             r2.year, List.mem_toFinset.mpr (List.mem_map_of_mem _ hr2), hne⟩
  exact ⟨hdedup.trans (by rw [hcard]), hdedup.trans ((hcard ▸ hfin.symm).symm)⟩

/-- Witness for C7: the sample window spanning 2021 and 2022 produces the
year-over-year aggregate. -/
theorem claim_C7_witness : (yearlyAvgOpt ntSample pjmCol dateA dateC).isSome = true :=
  (claim_C7_yearly_presence ntSample pjmCol dateA dateC).2.mpr
    ⟨rowA, by decide, rowC, by decide, by decide⟩

theorem groupMeansBy_keys {K : Type} [DecidableEq K] (le : K → K → Bool)
    (key : NRow → K) (val : NRow → Cell) (rows : List NRow) :
    (groupMeansBy le key val rows).map Prod.fst = sortB le ((rows.map key).dedup) := by
  rw [groupMeansBy, List.map_map]
  exact List.map_id _

/-- Claim C8: the daily, hourly and day-of-week groupings each partition
the filtered rows (group sizes sum to the filtered row count); the
hourly profile is ordered by hour ascending; and an hour appears in the
profile exactly when some filtered row has that hour (absent groups are
not zero-filled). -/
theorem claim_C8_group_partitions (nt : NormalizedTable) (col : Str) (s e : Date) :
    (((dailyConsumption nt col s e).map Prod.fst).map
        (fun k => ((filteredRows nt s e).filter (fun r => r.date = k)).length)).sum
      = (filteredRows nt s e).length
    ∧ (((hourlyAvg nt col s e).map Prod.fst).map
        (fun k => ((filteredRows nt s e).filter (fun r => r.hour = k)).length)).sum
      = (filteredRows nt s e).length
    ∧ (((dowAvg nt col s e).map Prod.fst).map
        (fun k => ((filteredRows nt s e).filter (fun r => r.dow = k)).length)).sum
      = (filteredRows nt s e).length
    ∧ List.Sorted (· ≤ ·) ((hourlyAvg nt col s e).map Prod.fst)
    ∧ (∀ h : Nat, h ∈ (hourlyAvg nt col s e).map Prod.fst ↔
        ∃ r ∈ filteredRows nt s e, r.hour = h) := by
  refine ⟨?_, ?_, ?_, ?_, ?_⟩
  · rw [dailyConsumption, groupMeansBy_keys]
    exact sum_group_sizes dateLE (fun r => r.date) (filteredRows nt s e)
  · rw [hourlyAvg, groupMeansBy_keys]
    exact sum_group_sizes natLeB (fun r => r.hour) (filteredRows nt s e)
  · rw [dowAvg, groupMeansBy_keys]
    exact sum_group_sizes natLeB (fun r => r.dow) (filteredRows nt s e)
  · rw [hourlyAvg, groupMeansBy_keys]
    have hp := pairwise_sortB natLeB
      (by intro a b; simp only [natLeB, decide_eq_true_eq]; omega)
      (by intro a b c h1 h2
          simp only [natLeB, decide_eq_true_eq] at *
          omega)
      (((filteredRows nt s e).map (fun r => r.hour)).dedup)
    exact hp.imp (by intro a b h; simpa [natLeB] using h)
  · intro h
    rw [hourlyAvg, groupMeansBy_keys, mem_sortB, List.mem_dedup, List.mem_map]

/-- Witness for C8: over the sample window the hourly group sizes sum to
the filtered row count. -/
theorem claim_C8_witness :
    (((hourlyAvg ntSample pjmCol dateA dateC).map Prod.fst).map
        (fun k => ((filteredRows ntSample dateA dateC).filter
          (fun r => r.hour = k)).length)).sum
      = (filteredRows ntSample dateA dateC).length :=
  (claim_C8_group_partitions ntSample pjmCol dateA dateC).2.1

/-- Counterexample for C3 as stated: over the one-row window whose only
value is `0`, the peak is zero, yet `average` and `peak` evaluate to the
defined value `0` — not to the undefined value (`none`/NaN) the claim
asserts for all three KPIs on zero-peak windows. -/
theorem claim_C3_counterexample :
    peakConsumption ntZero pjmCol dateA dateA = some 0
    ∧ avgConsumption ntZero pjmCol dateA dateA = some 0
    ∧ (some (0 : ℚ)) ≠ (none : Option ℚ) := by
  refine ⟨by decide, ?_, by decide⟩
  have hcv : colVals ntZero pjmCol dateA dateA = [0] := by decide
  rw [avgConsumption, hcv]
  simp [listMean?, meanVal]

/-- Claim C3, amended: on an empty filtered window all three KPIs are the
undefined value and the five derived aggregates are empty (year-over-year
absent); a null peak makes the load factor undefined; and a zero peak
makes the load factor undefined provided the window's values are
non-negative (average and peak themselves are then the defined value 0).
All computations are total — nothing raises. -/
theorem claim_C3_empty_and_zero_peak (nt : NormalizedTable) (col : Str) (s e : Date) :
    (filteredRows nt s e = [] →
        avgConsumption nt col s e = none
        ∧ peakConsumption nt col s e = none
        ∧ loadFactorKPI nt col s e = FloatVal.nan
        ∧ dailyConsumption nt col s e = []
        ∧ hourlyAvg nt col s e = []
        ∧ monthlyDistribution nt col s e = []
        ∧ dowAvg nt col s e = []
        ∧ yearlyAvgOpt nt col s e = none)
    ∧ (peakConsumption nt col s e = none → loadFactorKPI nt col s e = FloatVal.nan)
    ∧ (peakConsumption nt col s e = some 0 →
        (∀ q ∈ colVals nt col s e, 0 ≤ q) →
        loadFactorKPI nt col s e = FloatVal.nan) := by
  refine ⟨?_, ?_, ?_⟩
  · intro hemp
    have hcv : colVals nt col s e = [] := by
      simp [colVals, colCells, hemp, cellsToVals]
    have ha : avgConsumption nt col s e = none := by
      simp [avgConsumption, listMean?, hcv]
    have hpk : peakConsumption nt col s e = none := by
      simp [peakConsumption, hcv, listMax?]
    refine ⟨ha, hpk, ?_, ?_, ?_, ?_, ?_, ?_⟩
    · rw [loadFactorKPI, ha, hpk]; rfl
    · simp [dailyConsumption, groupMeansBy, hemp, sortB]
    · simp [hourlyAvg, groupMeansBy, hemp, sortB]
    · simp [monthlyDistribution, hemp, sortB]
    · simp [dowAvg, groupMeansBy, hemp, sortB]
    · simp [yearlyAvgOpt, hemp]
  · intro hpk
    rcases ha : avgConsumption nt col s e with _ | a <;>
      rw [loadFactorKPI, ha, hpk] <;> rfl
  · intro hpk hnn
    have hspec := listMax?_spec (l := colVals nt col s e) (m := 0) hpk
    have hall : ∀ x ∈ colVals nt col s e, x = (0 : ℚ) := by
      intro x hx
      exact le_antisymm (hspec.2 x hx) (hnn x hx)
    have hne : colVals nt col s e ≠ [] := by
      intro h
      rw [h] at hspec
      exact absurd hspec.1 (List.not_mem_nil _)
    have ha : avgConsumption nt col s e = some 0 := by
      rw [avgConsumption, listMean?, if_neg hne, meanVal, List.sum_eq_zero hall,
        zero_div]
    rw [loadFactorKPI, ha, hpk]
    rfl

/-- Witness for C3: with an all-zero window the load factor is the
undefined value. -/
theorem claim_C3_witness : loadFactorKPI ntZero pjmCol dateA dateA = FloatVal.nan :=
  (claim_C3_empty_and_zero_peak ntZero pjmCol dateA dateA).2.2 (by decide) (by decide)

/-- Claim C4: over a window with non-negative values and a strictly
positive peak `p`, the load factor equals `average / p * 100` and lies in
`[0, 100]`. -/
theorem claim_C4_load_factor_bounds (nt : NormalizedTable) (col : Str) (s e : Date)
    (p : ℚ) (hp : peakConsumption nt col s e = some p) (hpos : 0 < p)
    (hnn : ∀ q ∈ colVals nt col s e, 0 ≤ q) :
    avgConsumption nt col s e = some (meanVal (colVals nt col s e))
    ∧ loadFactorKPI nt col s e
        = FloatVal.fin (meanVal (colVals nt col s e) / p * 100)
    ∧ 0 ≤ meanVal (colVals nt col s e) / p * 100
    ∧ meanVal (colVals nt col s e) / p * 100 ≤ 100 := by
  have hspec := listMax?_spec (l := colVals nt col s e) (m := p) hp
  have hne : colVals nt col s e ≠ [] := by
    intro h
    rw [h] at hspec
    exact absurd hspec.1 (List.not_mem_nil _)
  have havg : avgConsumption nt col s e = some (meanVal (colVals nt col s e)) := by
    rw [avgConsumption, listMean?, if_neg hne]
  have hlen : (0 : ℚ) < ((colVals nt col s e).length : ℚ) := by
    have := List.length_pos.mpr hne
    exact_mod_cast this
  have hsum0 : (0 : ℚ) ≤ (colVals nt col s e).sum := by
    have := List.card_nsmul_le_sum (colVals nt col s e) (0 : ℚ) hnn
    simpa using this
  have hsumle : (colVals nt col s e).sum ≤ ((colVals nt col s e).length : ℚ) * p := by
    have := List.sum_le_card_nsmul (colVals nt col s e) p hspec.2
    simpa [nsmul_eq_mul] using this
  have hm0 : 0 ≤ meanVal (colVals nt col s e) := div_nonneg hsum0 hlen.le
  have hmle : meanVal (colVals nt col s e) ≤ p := by
    rw [meanVal, div_le_iff₀ hlen]
    linarith
  refine ⟨havg, ?_, ?_, ?_⟩
  · rw [loadFactorKPI, havg, hp, floatLF, if_neg hpos.ne']
  · have h1 : 0 ≤ meanVal (colVals nt col s e) / p := div_nonneg hm0 hpos.le
    nlinarith
  · have h1 : meanVal (colVals nt col s e) / p ≤ 1 := (div_le_one hpos).mpr hmle
    nlinarith

/-- Witness for C4: over the two-row 2021 window of the sample table the
peak is 3, the average 2, and the load factor `200/3`, inside `[0,100]`. -/
theorem claim_C4_witness :
    avgConsumption ntSample pjmCol dateA dateA
        = some (meanVal (colVals ntSample pjmCol dateA dateA))
    ∧ loadFactorKPI ntSample pjmCol dateA dateA
        = FloatVal.fin (meanVal (colVals ntSample pjmCol dateA dateA) / 3 * 100)
    ∧ 0 ≤ meanVal (colVals ntSample pjmCol dateA dateA) / 3 * 100
    ∧ meanVal (colVals ntSample pjmCol dateA dateA) / 3 * 100 ≤ 100 :=
  claim_C4_load_factor_bounds ntSample pjmCol dateA dateA 3
    (by decide) (by norm_num) (by decide)

/-! ### Sample source files -/

/-- A two-column file with non-canonical names. -/
def fileTwoCol : RawFile :=
  ⟨("pjm_hourly.csv").toList, [("ts").toList, ("value").toList],
   [[Cell.dt dtA, Cell.num 100], [Cell.dt dtB, Cell.num 120]]⟩

/-- A three-column file with a `Datetime` column and an `AEP_MW` column. -/
def fileSuffix : RawFile :=
  ⟨("aep_hourly.csv").toList, [dtName, ("x").toList, ("AEP_MW").toList],
   [[Cell.dt dtA, Cell.num 7, Cell.num 50]]⟩

/-- A three-column file with no `Datetime` column. -/
def fileNoDt : RawFile :=
  ⟨("bad_hourly.csv").toList, [("a").toList, ("b").toList, ("c").toList],
   [[Cell.num 1, Cell.num 2, Cell.num 3]]⟩

/-- A three-column file with a column literally named `MW` and no
`_MW`-suffixed column. -/
def fileLiteralMW : RawFile :=
  ⟨("pjm_hourly.csv").toList, [dtName, ("x").toList, mwName],
   [[Cell.dt dtA, Cell.num 1, Cell.num 2]]⟩

/-! ### Loading helper lemmas -/

theorem successes_append_error (pre post : List RawFile) (f : RawFile) (msg : Str)
    (hf : loadOne f = .error msg) :
    successes (pre ++ f :: post) = successes pre ++ successes post := by
  rw [successes, successes, successes, List.filterMap_append, List.filterMap_cons]
  rw [hf]
  rfl

/-- Claim C5: a file whose schema cannot be coerced is excluded without
aborting the load of the remaining files, and ingestion fails with the
terminal "no data" error exactly when zero files load successfully. -/
theorem claim_C5_skip_and_terminal :
    (∀ (pre post : List RawFile) (f : RawFile) (msg : Str),
        loadOne f = .error msg →
        successes (pre ++ f :: post) = successes pre ++ successes post)
    ∧ (∀ fs : List RawFile, successes fs = [] →
        loadData fs = .error (("No data files could be loaded!").toList))
    ∧ (∀ fs : List RawFile, successes fs ≠ [] → ∃ m, loadData fs = .ok m) := by
  refine ⟨successes_append_error, ?_, ?_⟩
  · intro fs h
    unfold loadData
    rw [h]
    rfl
  · intro fs h
    unfold loadData
    rcases hs : successes fs with _ | ⟨t, ts⟩
    · exact absurd hs h
    · exact ⟨_, rfl⟩

/-- Witness for C5: the schema-less file is skipped between two good
files, and a source set whose only file is bad fails terminally. -/
theorem claim_C5_witness :
    successes [fileTwoCol, fileNoDt, fileSuffix]
      = successes [fileTwoCol] ++ successes [fileSuffix]
    ∧ loadData [fileNoDt] = .error (("No data files could be loaded!").toList) :=
  ⟨claim_C5_skip_and_terminal.1 [fileTwoCol] [fileSuffix] fileNoDt
      (("KeyError: Datetime").toList) (by rfl),
   claim_C5_skip_and_terminal.2.1 [fileNoDt] (by rfl)⟩

/-! ### Canonicalization helper lemmas -/

theorem fixCols_two {cols : List Str} (h : cols.length = 2) :
    fixCols cols = [dtName, mwName] := by
  unfold fixCols; rw [if_pos h]

theorem fixCols_rename {cols : List Str} {mwc : Str} (h2 : cols.length ≠ 2)
    (hfind : cols.find? (fun c => strEndsWith c mwSuf) = some mwc) :
    fixCols cols = cols.map (fun c => if c = mwc then mwName else c) := by
  unfold fixCols; rw [if_neg h2, hfind]

theorem fixCols_id {cols : List Str} (h2 : cols.length ≠ 2)
    (hfind : cols.find? (fun c => strEndsWith c mwSuf) = none) :
    fixCols cols = cols := by
  unfold fixCols; rw [if_neg h2, hfind]

theorem loadOne_ok_of (f : RawFile) (cols : List Str) (mw : Str)
    (hfix : fixCols f.cols = cols) (hmwc : mwColOf cols = some mw)
    (hdt : dtName ∈ cols) :
    loadOne f = .ok (loadedTable f (idxOfA dtName cols) (idxOfA mw cols)) := by
  unfold loadOne
  rw [hfix, hmwc]
  show (if dtName ∈ cols then
      Except.ok (loadedTable f (idxOfA dtName cols) (idxOfA mw cols))
    else Except.error (("KeyError: Datetime").toList)) = _
  rw [if_pos hdt]

theorem loadOne_keyError_of (f : RawFile) (cols : List Str) (mw : Str)
    (hfix : fixCols f.cols = cols) (hmwc : mwColOf cols = some mw)
    (hdt : dtName ∉ cols) :
    loadOne f = .error (("KeyError: Datetime").toList) := by
  unfold loadOne
  rw [hfix, hmwc]
  show (if dtName ∈ cols then
      Except.ok (loadedTable f (idxOfA dtName cols) (idxOfA mw cols))
    else Except.error (("KeyError: Datetime").toList)) = _
  rw [if_neg hdt]

theorem idxOfA_map_iff (g : Str → Str) (x y : Str) (l : List Str)
    (h : ∀ c ∈ l, (g c = x ↔ c = y)) :
    idxOfA x (l.map g) = idxOfA y l := by
  induction l with
  | nil => rfl
  | cons c cs ih =>
      simp only [List.map_cons, idxOfA]
      by_cases hc : c = y
      · rw [if_pos ((h c (List.mem_cons_self c cs)).mpr hc), if_pos hc]
      · rw [if_neg (fun hgc => hc ((h c (List.mem_cons_self c cs)).mp hgc)),
          if_neg hc, ih (fun d hd => h d (List.mem_cons_of_mem c hd))]

theorem mem_map_iff_of (g : Str → Str) (x y : Str) (l : List Str)
    (h : ∀ c ∈ l, (g c = x ↔ c = y)) :
    x ∈ l.map g ↔ y ∈ l := by
  rw [List.mem_map]
  constructor
  · rintro ⟨c, hc, hgc⟩
    exact (h c hc).mp hgc ▸ hc
  · intro hy
    exact ⟨y, hy, (h y hy).mpr rfl⟩

theorem rename_dt_iff {mwc : Str} (hP : strEndsWith mwc mwSuf = true) (c : Str) :
    ((if c = mwc then mwName else c) = dtName ↔ c = dtName) := by
  have hmwcdt : mwc ≠ dtName := by
    intro h; rw [h] at hP; exact absurd hP (by decide)
  by_cases hc : c = mwc
  · rw [if_pos hc]
    constructor
    · intro h; exact absurd h (by decide)
    · intro h; exact absurd (hc.symm.trans h) hmwcdt
  · rw [if_neg hc]

theorem rename_mw_iff {cols : List Str} {mwc : Str} (hnm : mwName ∉ cols) :
    ∀ c ∈ cols, ((if c = mwc then mwName else c) = mwName ↔ c = mwc) := by
  intro c hc
  by_cases hcm : c = mwc
  · rw [if_pos hcm]
    simp [hcm]
  · rw [if_neg hcm]
    constructor
    · intro h; exact absurd (h ▸ hc) hnm
    · intro h; exact absurd h hcm

theorem loadOne_two_cols (f : RawFile) (h : f.cols.length = 2) :
    loadOne f = .ok (loadedTable f 0 1) := by
  have hfix := fixCols_two h
  have hmwc : mwColOf [dtName, mwName] = some mwName := by decide
  have hdt : dtName ∈ [dtName, mwName] := by decide
  exact loadOne_ok_of f [dtName, mwName] mwName hfix hmwc hdt

theorem loadOne_first_suffix (f : RawFile) (mwc : Str)
    (h2 : f.cols.length ≠ 2)
    (hfind : f.cols.find? (fun c => strEndsWith c mwSuf) = some mwc)
    (hdt : dtName ∈ f.cols) (hnm : mwName ∉ f.cols) :
    loadOne f = .ok (loadedTable f (idxOfA dtName f.cols) (idxOfA mwc f.cols)) := by
  have hP0 := List.find?_some hfind
  have hP : strEndsWith mwc mwSuf = true := hP0
  have hmem : mwc ∈ f.cols := List.mem_of_find?_eq_some hfind
  have hfix : fixCols f.cols
      = f.cols.map (fun c => if c = mwc then mwName else c) :=
    fixCols_rename h2 hfind
  have hdtiff : ∀ c ∈ f.cols,
      ((if c = mwc then mwName else c) = dtName ↔ c = dtName) :=
    fun c _ => rename_dt_iff hP c
  have hdt' : dtName ∈ f.cols.map (fun c => if c = mwc then mwName else c) :=
    (mem_map_iff_of _ dtName dtName f.cols hdtiff).mpr hdt
  have hmw' : mwName ∈ f.cols.map (fun c => if c = mwc then mwName else c) := by
    rw [List.mem_map]
    exact ⟨mwc, hmem, by simp⟩
  have hmwc' : mwColOf (f.cols.map (fun c => if c = mwc then mwName else c))
      = some mwName := by
    unfold mwColOf; rw [if_pos hmw']
  have hres := loadOne_ok_of f _ mwName hfix hmwc' hdt'
  rw [hres, idxOfA_map_iff _ dtName dtName f.cols hdtiff,
    idxOfA_map_iff _ mwName mwc f.cols (rename_mw_iff hnm)]

theorem loadOne_literal_mw (f : RawFile)
    (h2 : f.cols.length ≠ 2)
    (hfind : f.cols.find? (fun c => strEndsWith c mwSuf) = none)
    (hmw : mwName ∈ f.cols) (hdt : dtName ∈ f.cols) :
    loadOne f = .ok (loadedTable f (idxOfA dtName f.cols) (idxOfA mwName f.cols)) := by
  have hfix : fixCols f.cols = f.cols := fixCols_id h2 hfind
  have hmwc : mwColOf f.cols = some mwName := by
    unfold mwColOf; rw [if_pos hmw]
  exact loadOne_ok_of f f.cols mwName hfix hmwc hdt

theorem loadOne_positional (f : RawFile) (c0 c1 : Str) (rest : List Str)
    (hcols : f.cols = c0 :: c1 :: rest)
    (h2 : f.cols.length ≠ 2)
    (hfind : f.cols.find? (fun c => strEndsWith c mwSuf) = none)
    (hnm : mwName ∉ f.cols) (hdt : dtName ∈ f.cols) (hne : c0 ≠ c1) :
    loadOne f = .ok (loadedTable f (idxOfA dtName f.cols) 1) := by
  have hfix : fixCols f.cols = f.cols := fixCols_id h2 hfind
  have hget : f.cols[1]? = some c1 := by rw [hcols]; simp
  have hmwc : mwColOf f.cols = some c1 := by
    unfold mwColOf; rw [if_neg hnm, hget]
  have hres := loadOne_ok_of f f.cols c1 hfix hmwc hdt
  have hidx : idxOfA c1 f.cols = 1 := by
    rw [hcols]
    simp [idxOfA, hne]
  rw [hres, hidx]

/-- Counterexample for C2 as stated: `fileLiteralMW` has three columns,
none ending in `_MW`, so by the claim's rule (c) the second column by
position (`"x"`, value 1) should become the value column; the code's
`'MW' in temp_df.columns` test instead selects the third column,
literally named `MW` (value 2). -/
theorem claim_C2_counterexample :
    loadOne fileLiteralMW = .ok (loadedTable fileLiteralMW 0 2)
    ∧ loadedTable fileLiteralMW 0 2
        = ⟨("PJM").toList, [(Cell.dt dtA, Cell.num 2)]⟩
    ∧ loadedTable fileLiteralMW 0 1
        = ⟨("PJM").toList, [(Cell.dt dtA, Cell.num 1)]⟩
    ∧ (⟨("PJM").toList, [(Cell.dt dtA, Cell.num 2)]⟩ : RegionTable)
        ≠ ⟨("PJM").toList, [(Cell.dt dtA, Cell.num 1)]⟩ :=
  ⟨by rfl, by rfl, by rfl, by decide⟩

/-- Claim C2, amended: canonicalization applies the column rules in
priority order — (a) exactly two columns are taken positionally as
`(Datetime, value)`; (b) otherwise the first column ending in `_MW`
becomes the value column; (b') otherwise a column literally named `MW`
becomes the value column; (c) otherwise the second column by position
does.  In every case the result is the `(Datetime, value)` selection
renamed to `(Datetime, <REGION>_MW)`.  (The claim as frozen omitted rule
(b'), which precedes (c) in the code.) -/
theorem claim_C2_canonicalization_rules (f : RawFile) :
    (f.cols.length = 2 → loadOne f = .ok (loadedTable f 0 1))
    ∧ (∀ mwc : Str, f.cols.length ≠ 2 →
        f.cols.find? (fun c => strEndsWith c mwSuf) = some mwc →
        dtName ∈ f.cols → mwName ∉ f.cols →
        loadOne f = .ok (loadedTable f (idxOfA dtName f.cols) (idxOfA mwc f.cols)))
    ∧ (f.cols.length ≠ 2 →
        f.cols.find? (fun c => strEndsWith c mwSuf) = none →
        mwName ∈ f.cols → dtName ∈ f.cols →
        loadOne f = .ok (loadedTable f (idxOfA dtName f.cols) (idxOfA mwName f.cols)))
    ∧ (∀ (c0 c1 : Str) (rest : List Str), f.cols = c0 :: c1 :: rest →
        f.cols.length ≠ 2 →
        f.cols.find? (fun c => strEndsWith c mwSuf) = none →
        mwName ∉ f.cols → dtName ∈ f.cols → c0 ≠ c1 →
        loadOne f = .ok (loadedTable f (idxOfA dtName f.cols) 1)) :=
  ⟨fun h => loadOne_two_cols f h,
   fun mwc h2 hfind hdt hnm => loadOne_first_suffix f mwc h2 hfind hdt hnm,
   fun h2 hfind hmw hdt => loadOne_literal_mw f h2 hfind hmw hdt,
   fun c0 c1 rest hcols h2 hfind hnm hdt hne =>
     loadOne_positional f c0 c1 rest hcols h2 hfind hnm hdt hne⟩

/-- Witness for C2: the two-column file with non-canonical names loads
positionally, and the `AEP_MW`-suffixed file loads through rule (b). -/
theorem claim_C2_witness :
    loadOne fileTwoCol = .ok (loadedTable fileTwoCol 0 1)
    ∧ loadOne fileSuffix
        = .ok (loadedTable fileSuffix (idxOfA dtName fileSuffix.cols)
            (idxOfA (("AEP_MW").toList) fileSuffix.cols)) :=
  ⟨(claim_C2_canonicalization_rules fileTwoCol).1 (by rfl),
   (claim_C2_canonicalization_rules fileSuffix).2.1 (("AEP_MW").toList)
     (by decide) (by decide) (by decide) (by decide)⟩

/-- Claim C10: a file with more than two columns loads only if it has a
column literally named `Datetime` — lacking one, the selection raises the
internal `KeyError` and the file is skipped (the surrounding load
continues); and among several `_MW`-suffixed columns the first in column
order becomes the value column. -/
theorem claim_C10_datetime_required (f : RawFile) :
    (2 < f.cols.length → dtName ∉ f.cols →
        loadOne f = .error (("KeyError: Datetime").toList))
    ∧ (∀ (pre post : List RawFile) (msg : Str), loadOne f = .error msg →
        successes (pre ++ f :: post) = successes pre ++ successes post)
    ∧ (∀ mwc : Str, f.cols.length ≠ 2 →
        f.cols.find? (fun c => strEndsWith c mwSuf) = some mwc →
        dtName ∈ f.cols → mwName ∉ f.cols →
        loadOne f = .ok (loadedTable f (idxOfA dtName f.cols) (idxOfA mwc f.cols))) := by
  refine ⟨?_, fun pre post msg h => successes_append_error pre post f msg h,
    fun mwc h2 hfind hdt hnm => loadOne_first_suffix f mwc h2 hfind hdt hnm⟩
  intro hlen hdt
  have h2 : f.cols.length ≠ 2 := by omega
  rcases hfind : f.cols.find? (fun c => strEndsWith c mwSuf) with _ | mwc
  · have hfix : fixCols f.cols = f.cols := fixCols_id h2 hfind
    by_cases hmw : mwName ∈ f.cols
    · have hmwc : mwColOf f.cols = some mwName := by
        unfold mwColOf; rw [if_pos hmw]
      exact loadOne_keyError_of f f.cols mwName hfix hmwc hdt
    · have h1 : 1 < f.cols.length := by omega
      have hget : f.cols[1]? = some (f.cols[1]) := List.getElem?_eq_getElem h1
      have hmwc : mwColOf f.cols = some (f.cols[1]) := by
        unfold mwColOf; rw [if_neg hmw, hget]
      exact loadOne_keyError_of f f.cols (f.cols[1]) hfix hmwc hdt
  · have hP0 := List.find?_some hfind
    have hP : strEndsWith mwc mwSuf = true := hP0
    have hmem : mwc ∈ f.cols := List.mem_of_find?_eq_some hfind
    have hfix : fixCols f.cols
        = f.cols.map (fun c => if c = mwc then mwName else c) :=
      fixCols_rename h2 hfind
    have hdtiff : ∀ c ∈ f.cols,
        ((if c = mwc then mwName else c) = dtName ↔ c = dtName) :=
      fun c _ => rename_dt_iff hP c
    have hmw' : mwName ∈ f.cols.map (fun c => if c = mwc then mwName else c) := by
      rw [List.mem_map]
      exact ⟨mwc, hmem, by simp⟩
    have hmwc' : mwColOf (f.cols.map (fun c => if c = mwc then mwName else c))
        = some mwName := by
      unfold mwColOf; rw [if_pos hmw']
    have hdt' : dtName ∉ f.cols.map (fun c => if c = mwc then mwName else c) := by
      rw [mem_map_iff_of _ dtName dtName f.cols hdtiff]
      exact hdt
    exact loadOne_keyError_of f _ mwName hfix hmwc' hdt'

/-- Witness for C10: the three-column file lacking `Datetime` fails with
the key error. -/
theorem claim_C10_witness :
    loadOne fileNoDt = .error (("KeyError: Datetime").toList) :=
  (claim_C10_datetime_required fileNoDt).1 (by decide) (by decide)

/-! ### Merge helper lemmas -/

theorem toMerged_keys (t : RegionTable) :
    (toMerged t).rows.map Prod.fst = t.rows.map Prod.fst := by
  rw [toMerged]
  rw [List.map_map]
  rfl

theorem toMerged_cols (t : RegionTable) : (toMerged t).cols = [t.region ++ mwSuf] := rfl

theorem filter_key_length_le_one {u : List (Cell × List Cell)}
    (hu : (u.map Prod.fst).Nodup) (k : Cell) :
    (u.filter (fun r2 => r2.1 = k)).length ≤ 1 := by
  rw [length_filter_key_eq_count Prod.fst u k]
  exact List.nodup_iff_count_le_one.mp hu k

theorem contrib_keys (u : MergedTable) (hu : (u.rows.map Prod.fst).Nodup)
    (r : Cell × List Cell) :
    ((let ms := u.rows.filter (fun r2 => r2.1 = r.1)
      if ms.isEmpty then [(r.1, r.2 ++ List.replicate u.cols.length Cell.null)]
      else ms.map (fun r2 => (r.1, r.2 ++ r2.2))).map Prod.fst) = [r.1] := by
  show ((if (u.rows.filter (fun r2 => r2.1 = r.1)).isEmpty
      then [(r.1, r.2 ++ List.replicate u.cols.length Cell.null)]
      else (u.rows.filter (fun r2 => r2.1 = r.1)).map
        (fun r2 => (r.1, r.2 ++ r2.2))).map Prod.fst) = [r.1]
  have hlen := filter_key_length_le_one hu r.1
  rcases hms : u.rows.filter (fun r2 => r2.1 = r.1) with _ | ⟨x, xs⟩
  · rw [hms]
    rfl
  · rw [hms] at hlen
    have hxs : xs = [] := by
      simp only [List.length_cons] at hlen
      exact List.length_eq_zero.mp (by omega)
    subst hxs
    rw [hms]
    rfl

theorem mergeOuter_keys (t u : MergedTable) (hu : (u.rows.map Prod.fst).Nodup) :
    (mergeOuter t u).rows.map Prod.fst
      = t.rows.map Prod.fst
        ++ (u.rows.filter
              (fun r2 => ¬ t.rows.any (fun r => r.1 = r2.1))).map Prod.fst := by
  show ((t.rows.flatMap _) ++ _).map Prod.fst = _
  rw [List.map_append]
  congr 1
  · induction t.rows with
    | nil => rfl
    | cons r rs ih =>
        rw [List.flatMap_cons, List.map_append, ih, List.map_cons,
          contrib_keys u hu r]
        rfl
  · rw [List.map_map]
    exact List.map_congr_left (fun r2 _ => rfl)

theorem mem_keys_iff_any {l : List (Cell × List Cell)} {k : Cell} :
    l.any (fun r => r.1 = k) = true ↔ k ∈ l.map Prod.fst := by
  rw [List.any_eq_true, List.mem_map]
  constructor
  · rintro ⟨r, hr, hk⟩
    exact ⟨r, hr, by simpa using hk⟩
  · rintro ⟨r, hr, hk⟩
    exact ⟨r, hr, by simpa using hk⟩

theorem mergeOuter_keys_nodup (t u : MergedTable)
    (ht : (t.rows.map Prod.fst).Nodup) (hu : (u.rows.map Prod.fst).Nodup) :
    ((mergeOuter t u).rows.map Prod.fst).Nodup := by
  rw [mergeOuter_keys t u hu]
  refine List.Nodup.append ht (hu.sublist ((List.filter_sublist u.rows).map Prod.fst)) ?_
  intro k hkt hku
  rcases List.mem_map.mp hku with ⟨r2, hr2, hk⟩
  have hfil := (List.mem_filter.mp hr2).2
  rw [hk] at hfil
  rw [← mem_keys_iff_any] at hkt
  simp only [hkt] at hfil
  exact absurd hfil (by decide)

theorem mem_mergeOuter_keys (t u : MergedTable) (hu : (u.rows.map Prod.fst).Nodup)
    (k : Cell) :
    k ∈ (mergeOuter t u).rows.map Prod.fst ↔
      k ∈ t.rows.map Prod.fst ∨ k ∈ u.rows.map Prod.fst := by
  rw [mergeOuter_keys t u hu, List.mem_append]
  constructor
  · rintro (h | h)
    · exact Or.inl h
    · rcases List.mem_map.mp h with ⟨r2, hr2, hk⟩
      exact Or.inr (List.mem_map.mpr ⟨r2, (List.mem_filter.mp hr2).1, hk⟩)
  · rintro (h | h)
    · exact Or.inl h
    · by_cases hkt : k ∈ t.rows.map Prod.fst
      · exact Or.inl hkt
      · rcases List.mem_map.mp h with ⟨r2, hr2, hk⟩
        refine Or.inr (List.mem_map.mpr ⟨r2, List.mem_filter.mpr ⟨hr2, ?_⟩, hk⟩)
        subst hk
        simp only [decide_eq_true_eq]
        intro hany
        exact hkt (mem_keys_iff_any.mp (by simpa using hany))

theorem foldl_merge_keys (us : List MergedTable) (acc : MergedTable)
    (hacc : (acc.rows.map Prod.fst).Nodup)
    (hus : ∀ u ∈ us, (u.rows.map Prod.fst).Nodup) :
    ((us.foldl mergeOuter acc).rows.map Prod.fst).Nodup
    ∧ ∀ k, k ∈ (us.foldl mergeOuter acc).rows.map Prod.fst ↔
        k ∈ acc.rows.map Prod.fst ∨ ∃ u ∈ us, k ∈ u.rows.map Prod.fst := by
  induction us generalizing acc with
  | nil => simpa using hacc
  | cons u us ih =>
      have hu := hus u (List.mem_cons_self u us)
      have hacc' := mergeOuter_keys_nodup acc u hacc hu
      rcases ih (mergeOuter acc u) hacc'
        (fun v hv => hus v (List.mem_cons_of_mem u hv)) with ⟨h1, h2⟩
      refine ⟨h1, fun k => ?_⟩
      rw [List.foldl_cons, h2 k, mem_mergeOuter_keys acc u hu k]
      simp only [List.mem_cons]
      constructor
      · rintro ((h | h) | ⟨v, hv, h⟩)
        · exact Or.inl h
        · exact Or.inr ⟨u, Or.inl rfl, h⟩
        · exact Or.inr ⟨v, Or.inr hv, h⟩
      · rintro (h | ⟨v, hv | hv, h⟩)
        · exact Or.inl (Or.inl h)
        · exact Or.inl (Or.inr (hv ▸ h))
        · exact Or.inr ⟨v, hv, h⟩

theorem flatMap_length_one {α β : Type} (l : List α) (f : α → List β)
    (h : ∀ x ∈ l, (f x).length = 1) : (l.flatMap f).length = l.length := by
  induction l with
  | nil => rfl
  | cons x xs ih =>
      rw [List.flatMap_cons, List.length_append, h x (List.mem_cons_self x xs),
        ih (fun y hy => h y (List.mem_cons_of_mem x hy)), List.length_cons]
      omega

/-- A one-source table with a duplicated timestamp. -/
def dupTable : RegionTable :=
  ⟨("PJM").toList, [(Cell.dt dtA, Cell.num 1), (Cell.dt dtA, Cell.num 2)]⟩

/-- A one-row PJM table at `dtA`. -/
def tblP : RegionTable := ⟨("PJM").toList, [(Cell.dt dtA, Cell.num 100)]⟩

/-- A one-row AEP table at `dtB` (disjoint from `tblP`). -/
def tblA : RegionTable := ⟨("AEP").toList, [(Cell.dt dtB, Cell.num 50)]⟩

/-- The merge of `tblP` and `tblA`. -/
def mergedPA : MergedTable := mergeOuter (toMerged tblP) (toMerged tblA)

/-- Counterexample for C1 as stated: a single loaded source whose rows
repeat one timestamp merges (trivially) to a table with two rows but only
one distinct timestamp, so "exactly one row per distinct timestamp" fails
without a per-source distinctness assumption. -/
theorem claim_C1_counterexample :
    (mergedOf [dupTable]).map (fun m => m.rows.length) = some 2
    ∧ (mergedOf [dupTable]).map
        (fun m => ((m.rows.map Prod.fst).dedup).length) = some 1 :=
  ⟨by rfl, by decide⟩


theorem mergedOf_keys (rts : List RegionTable) (m : MergedTable)
    (hnd : ∀ rt ∈ rts, (rt.rows.map Prod.fst).Nodup)
    (hm : mergedOf rts = some m) :
    (m.rows.map Prod.fst).Nodup
    ∧ ∀ k, k ∈ m.rows.map Prod.fst ↔ ∃ rt ∈ rts, k ∈ rt.rows.map Prod.fst := by
  rcases rts with _ | ⟨t, ts⟩
  · exact absurd hm (by simp [mergedOf])
  · have h0 : mergedOf (t :: ts)
        = some ((ts.map toMerged).foldl mergeOuter (toMerged t)) := rfl
    rw [h0] at hm
    have hm' : ((ts.map toMerged).foldl mergeOuter (toMerged t)) = m :=
      Option.some_inj.mp hm
    subst hm'
    have hndM : ∀ u ∈ ts.map toMerged, (u.rows.map Prod.fst).Nodup := by
      intro u hu
      rcases List.mem_map.mp hu with ⟨rt, hrt, rfl⟩
      rw [toMerged_keys]
      exact hnd rt (List.mem_cons_of_mem t hrt)
    have hndT : ((toMerged t).rows.map Prod.fst).Nodup := by
      rw [toMerged_keys]
      exact hnd t (List.mem_cons_self t ts)
    rcases foldl_merge_keys (ts.map toMerged) (toMerged t) hndT hndM with ⟨h1, h2⟩
    refine ⟨h1, fun k => ?_⟩
    rw [h2 k]
    constructor
    · rintro (h | ⟨u, hu, h⟩)
      · rw [toMerged_keys] at h
        exact ⟨t, List.mem_cons_self t ts, h⟩
      · rcases List.mem_map.mp hu with ⟨rt, hrt, rfl⟩
        rw [toMerged_keys] at h
        exact ⟨rt, List.mem_cons_of_mem t hrt, h⟩
    · rintro ⟨rt, hrt, h⟩
      rcases List.mem_cons.mp hrt with hrt | hrt
      · exact Or.inl (by rw [toMerged_keys]; rw [hrt] at h; exact h)
      · exact Or.inr ⟨toMerged rt, List.mem_map_of_mem toMerged hrt,
          by rw [toMerged_keys]; exact h⟩

theorem mergeTwo_length (A B : RegionTable)
    (hdisj : ∀ k ∈ A.rows.map Prod.fst, k ∉ B.rows.map Prod.fst) :
    (mergeOuter (toMerged A) (toMerged B)).rows.length
      = A.rows.length + B.rows.length := by
  show ((toMerged A).rows.flatMap _ ++ _).length = _
  rw [List.length_append]
  have hleft : ((toMerged A).rows.flatMap
      (fun r =>
        let ms := (toMerged B).rows.filter (fun r2 => r2.1 = r.1)
        if ms.isEmpty
        then [(r.1, r.2 ++ List.replicate (toMerged B).cols.length Cell.null)]
        else ms.map (fun r2 => (r.1, r.2 ++ r2.2)))).length
      = (toMerged A).rows.length := by
    refine flatMap_length_one _ _ ?_
    intro r hr
    have hms : (toMerged B).rows.filter (fun r2 => r2.1 = r.1) = [] := by
      rw [List.filter_eq_nil_iff]
      intro r2 hr2
      have hkA : r.1 ∈ A.rows.map Prod.fst := by
        rw [← toMerged_keys]
        exact List.mem_map_of_mem Prod.fst hr
      have hkB : r2.1 ∈ B.rows.map Prod.fst := by
        rw [← toMerged_keys]
        exact List.mem_map_of_mem Prod.fst hr2
      simp only [decide_eq_true_eq]
      intro hEq
      rw [hEq] at hkB
      exact hdisj r.1 hkA hkB
    show (let ms := (toMerged B).rows.filter (fun r2 => r2.1 = r.1)
      if ms.isEmpty
      then [(r.1, r.2 ++ List.replicate (toMerged B).cols.length Cell.null)]
      else ms.map (fun r2 => (r.1, r.2 ++ r2.2))).length = 1
    show (if ((toMerged B).rows.filter (fun r2 => r2.1 = r.1)).isEmpty
      then [(r.1, r.2 ++ List.replicate (toMerged B).cols.length Cell.null)]
      else ((toMerged B).rows.filter (fun r2 => r2.1 = r.1)).map
        (fun r2 => (r.1, r.2 ++ r2.2))).length = 1
    rw [hms]
    rfl
  have hright : ((toMerged B).rows.filter
      (fun r2 => ¬ (toMerged A).rows.any (fun r => r.1 = r2.1))).length
      = (toMerged B).rows.length := by
    rw [List.filter_eq_self.mpr]
    intro r2 hr2
    have hkB : r2.1 ∈ B.rows.map Prod.fst := by
      rw [← toMerged_keys]
      exact List.mem_map_of_mem Prod.fst hr2
    simp only [decide_eq_true_eq]
    intro hany
    have h := mem_keys_iff_any.mp (by simpa using hany)
    rw [toMerged_keys] at h
    exact hdisj r2.1 h hkB
  have hlenT : ∀ t : RegionTable, (toMerged t).rows.length = t.rows.length := by
    intro t
    rw [toMerged]
    simp
  rw [hleft, List.length_map, hright, hlenT, hlenT]

theorem mergeTwo_right_mem (A B : RegionTable) (kv : Cell × Cell)
    (hkv : kv ∈ B.rows) (hnk : kv.1 ∉ A.rows.map Prod.fst) :
    (kv.1, [Cell.null, kv.2]) ∈ (mergeOuter (toMerged A) (toMerged B)).rows := by
  show _ ∈ (toMerged A).rows.flatMap _ ++ _
  rw [List.mem_append]
  refine Or.inr ?_
  rw [List.mem_map]
  refine ⟨(kv.1, [kv.2]), List.mem_filter.mpr ⟨List.mem_map_of_mem _ hkv, ?_⟩, rfl⟩
  simp only [decide_eq_true_eq]
  intro hany
  have h := mem_keys_iff_any.mp (by simpa using hany)
  rw [toMerged_keys] at h
  exact hnk h

theorem mergeTwo_left_mem (A B : RegionTable) (kv : Cell × Cell)
    (hkv : kv ∈ A.rows) (hnk : kv.1 ∉ B.rows.map Prod.fst) :
    (kv.1, [kv.2, Cell.null]) ∈ (mergeOuter (toMerged A) (toMerged B)).rows := by
  show _ ∈ (toMerged A).rows.flatMap _ ++ _
  rw [List.mem_append]
  refine Or.inl ?_
  rw [List.mem_flatMap]
  refine ⟨(kv.1, [kv.2]), List.mem_map_of_mem _ hkv, ?_⟩
  have hms : (toMerged B).rows.filter (fun r2 => r2.1 = kv.1) = [] := by
    rw [List.filter_eq_nil_iff]
    intro r2 hr2
    have hkB : r2.1 ∈ B.rows.map Prod.fst := by
      rw [← toMerged_keys]
      exact List.mem_map_of_mem Prod.fst hr2
    simp only [decide_eq_true_eq]
    intro hEq
    rw [hEq] at hkB
    exact hnk hkB
  show (kv.1, [kv.2, Cell.null]) ∈
    (let ms := (toMerged B).rows.filter (fun r2 => r2.1 = (kv.1, [kv.2]).1)
     if ms.isEmpty
     then [((kv.1, [kv.2]).1,
       (kv.1, [kv.2]).2 ++ List.replicate (toMerged B).cols.length Cell.null)]
     else ms.map (fun r2 => ((kv.1, [kv.2]).1, (kv.1, [kv.2]).2 ++ r2.2)))
  show (kv.1, [kv.2, Cell.null]) ∈
    (if ((toMerged B).rows.filter (fun r2 => r2.1 = kv.1)).isEmpty
     then [(kv.1, [kv.2] ++ List.replicate (toMerged B).cols.length Cell.null)]
     else ((toMerged B).rows.filter (fun r2 => r2.1 = kv.1)).map
       (fun r2 => (kv.1, [kv.2] ++ r2.2)))
  rw [hms]
  show (kv.1, [kv.2, Cell.null]) ∈ [(kv.1, [kv.2] ++ [Cell.null])]
  simp

/-- Claim C1, amended: provided every loaded source has pairwise-distinct
timestamps, the merged table has exactly one row per distinct timestamp
of the union (its key list is duplicate-free and contains exactly the
union of the sources' timestamps); for a two-source merge, a timestamp
present in only one source yields a row that is null in the other
region's column, and disjoint timestamp sets give `len(A)+len(B)` rows. -/
theorem claim_C1_outer_join_rows (rts : List RegionTable) (m : MergedTable)
    (hnd : ∀ rt ∈ rts, (rt.rows.map Prod.fst).Nodup)
    (hm : mergedOf rts = some m) :
    ((m.rows.map Prod.fst).Nodup
      ∧ ∀ k, k ∈ m.rows.map Prod.fst ↔ ∃ rt ∈ rts, k ∈ rt.rows.map Prod.fst)
    ∧ (∀ A B : RegionTable, rts = [A, B] →
        (∀ k ∈ A.rows.map Prod.fst, k ∉ B.rows.map Prod.fst) →
        m.rows.length = A.rows.length + B.rows.length)
    ∧ (∀ A B : RegionTable, rts = [A, B] →
        ∀ kv ∈ B.rows, kv.1 ∉ A.rows.map Prod.fst →
          (kv.1, [Cell.null, kv.2]) ∈ m.rows)
    ∧ (∀ A B : RegionTable, rts = [A, B] →
        ∀ kv ∈ A.rows, kv.1 ∉ B.rows.map Prod.fst →
          (kv.1, [kv.2, Cell.null]) ∈ m.rows) := by
  have hAB : ∀ A B : RegionTable, rts = [A, B] →
      m = mergeOuter (toMerged A) (toMerged B) := by
    intro A B h
    subst h
    have h0 : mergedOf [A, B] = some (mergeOuter (toMerged A) (toMerged B)) := rfl
    rw [h0] at hm
    exact (Option.some_inj.mp hm).symm
  refine ⟨mergedOf_keys rts m hnd hm, ?_, ?_, ?_⟩
  · intro A B h hdisj
    rw [hAB A B h]
    exact mergeTwo_length A B hdisj
  · intro A B h kv hkv hnk
    rw [hAB A B h]
    exact mergeTwo_right_mem A B kv hkv hnk
  · intro A B h kv hkv hnk
    rw [hAB A B h]
    exact mergeTwo_left_mem A B kv hkv hnk

/-- Witness for C1: merging the disjoint one-row tables `tblP` and `tblA`
gives two rows, and the `tblA` row is null in the PJM column. -/
theorem claim_C1_witness :
    mergedPA.rows.length = 2
    ∧ (Cell.dt dtB, [Cell.null, Cell.num 50]) ∈ mergedPA.rows := by
  have h := claim_C1_outer_join_rows [tblP, tblA] mergedPA (by decide) (by rfl)
  constructor
  · have hl := h.2.1 tblP tblA rfl (by decide)
    simpa using hl
  · exact h.2.2.1 tblP tblA rfl (Cell.dt dtB, Cell.num 50) (by decide) (by decide)

/-! ### Region-selection helper lemmas -/

theorem mergeOuter_cols_disjoint (t u : MergedTable)
    (hd : ∀ c ∈ t.cols, c ∉ u.cols) :
    (mergeOuter t u).cols = t.cols ++ u.cols := by
  show t.cols.map _ ++ u.cols.map _ = _
  congr 1
  · have hid : ∀ c ∈ t.cols,
        (if c ∈ u.cols then c ++ ("_x").toList else c) = c :=
      fun c hc => if_neg (hd c hc)
    exact (List.map_congr_left hid).trans (List.map_id _)
  · have hid : ∀ c ∈ u.cols,
        (if c ∈ t.cols then c ++ ("_y").toList else c) = c :=
      fun c hc => if_neg (fun hct => hd c hct hc)
    exact (List.map_congr_left hid).trans (List.map_id _)

theorem foldl_merge_cols_nodup (us : List MergedTable) (acc : MergedTable)
    (h : (acc.cols ++ (us.map MergedTable.cols).flatten).Nodup) :
    (us.foldl mergeOuter acc).cols = acc.cols ++ (us.map MergedTable.cols).flatten := by
  induction us generalizing acc with
  | nil => simp
  | cons u us ih =>
      rw [List.map_cons, List.flatten_cons] at h ⊢
      have hd : ∀ c ∈ acc.cols, c ∉ u.cols := by
        intro c hc hcu
        exact (List.nodup_append.mp h).2.2 hc (List.mem_append_left _ hcu)
      have hmc := mergeOuter_cols_disjoint acc u hd
      have h' : ((mergeOuter acc u).cols
          ++ ((us.map MergedTable.cols).flatten)).Nodup := by
        rw [hmc, List.append_assoc]
        exact h
      rw [List.foldl_cons, ih (mergeOuter acc u) h', hmc, List.append_assoc]

theorem mergedOf_cols (rts : List RegionTable) (m : MergedTable)
    (hnd : (rts.map (fun t => t.region ++ mwSuf)).Nodup)
    (hm : mergedOf rts = some m) :
    m.cols = rts.map (fun t => t.region ++ mwSuf) := by
  rcases rts with _ | ⟨t, ts⟩
  · exact absurd hm (by simp [mergedOf])
  · have h0 : mergedOf (t :: ts)
        = some ((ts.map toMerged).foldl mergeOuter (toMerged t)) := rfl
    rw [h0] at hm
    have hm' : ((ts.map toMerged).foldl mergeOuter (toMerged t)) = m :=
      Option.some_inj.mp hm
    subst hm'
    have hsing : ∀ us : List RegionTable,
        (us.map (MergedTable.cols ∘ toMerged)).flatten
          = us.map (fun t => t.region ++ mwSuf) := by
      intro us
      induction us with
      | nil => rfl
      | cons v vs ihv =>
          rw [List.map_cons, List.flatten_cons, ihv, List.map_cons]
          rfl
    have hnodup : ((toMerged t).cols
        ++ ((ts.map toMerged).map MergedTable.cols).flatten).Nodup := by
      rw [toMerged_cols, List.map_map, hsing ts, List.singleton_append]
      rw [List.map_cons] at hnd
      exact hnd
    rw [foldl_merge_cols_nodup _ _ hnodup, toMerged_cols, List.map_map,
      List.map_cons, hsing ts]
    rfl

theorem loadOne_ok_region (f : RawFile) (t : RegionTable)
    (h : loadOne f = .ok t) : t.region = strToUpper (leadingToken f.name) := by
  unfold loadOne at h
  split at h
  · exact Except.noConfusion h
  · split at h
    · injection h with h'
      rw [← h']
      rfl
    · exact Except.noConfusion h

theorem successes_mem (fs : List RawFile) (t : RegionTable)
    (ht : t ∈ successes fs) : ∃ f ∈ fs, loadOne f = .ok t := by
  rcases List.mem_filterMap.mp ht with ⟨f, hf, hopt⟩
  refine ⟨f, hf, ?_⟩
  rcases hl : loadOne f with e | a
  · rw [hl] at hopt
    exact Option.noConfusion hopt
  · rw [hl] at hopt
    exact congrArg Except.ok (Option.some_inj.mp hopt)

theorem regionNames_cols (ts : List RegionTable) (m : MergedTable)
    (hm : m.cols = ts.map (fun t => t.region ++ mwSuf))
    (hreg : ∀ t ∈ ts, '_' ∉ t.region) :
    regionNames (allColumns m) = ts.map (fun t => t.region) := by
  rw [allColumns, regionNames, regionColumns, List.filter_append,
    List.filter_cons, if_neg (by decide)]
  have hval : m.cols.filter (fun c => strEndsWith c mwSuf) = m.cols := by
    rw [List.filter_eq_self]
    intro c hc
    rw [hm] at hc
    rcases List.mem_map.mp hc with ⟨t, _, rfl⟩
    exact strEndsWith_append _ _
  have hder : List.filter (fun c => strEndsWith c mwSuf)
      [("Hour").toList, ("Date").toList, ("Month").toList, ("Year").toList,
       ("Day_of_week").toList] = [] := by decide
  rw [hval, hder, List.append_nil, hm, List.map_map]
  refine List.map_congr_left ?_
  intro t ht
  show replaceMW (t.region ++ mwSuf) = t.region
  exact replaceMW_strip t.region (hreg t ht)

/-- A second two-column file whose name shares the leading token `pjm`. -/
def fileTwoColEast : RawFile :=
  ⟨("pjm_east_hourly.csv").toList, [("ts").toList, ("value").toList],
   [[Cell.dt dtA, Cell.num 7]]⟩

/-- Counterexample for C9 as stated: two loaded files whose names share
the leading token both canonicalize to a `PJM_MW` column; the merge
renames the colliding pair to `PJM_MW_x`/`PJM_MW_y` (pandas' default
suffixes), neither of which ends in `_MW`, so the program lists no
regions where the claim predicts `[PJM, PJM]`. -/
theorem claim_C9_counterexample :
    (successes [fileTwoCol, fileTwoColEast]).map (fun t => t.region)
      = [("PJM").toList, ("PJM").toList]
    ∧ (mergedOf (successes [fileTwoCol, fileTwoColEast])).map
        (fun m => regionNames (allColumns m)) = some []
    ∧ ([("PJM").toList, ("PJM").toList] : List Str) ≠ [] :=
  ⟨by rfl, by rfl, by decide⟩

/-- Claim C9, amended: provided the loaded region identifiers are
pairwise distinct, the region list is exactly the merged value columns
(in merge order) with the `_MW` suffix stripped — i.e. the loaded regions
in merge order; the default selection is the first such region; and every
loaded region identifier is the upper-cased leading token of its source
file's name.  (Colliding region columns are `_x`/`_y`-suffixed by the
merge and then listed as no region at all.) -/
theorem claim_C9_region_selection (fs : List RawFile) (m : MergedTable)
    (hdist : ((successes fs).map (fun t => t.region)).Nodup)
    (hm : mergedOf (successes fs) = some m) :
    regionNames (allColumns m) = (successes fs).map (fun t => t.region)
    ∧ defaultRegionColumn (allColumns m)
        = (((successes fs).map (fun t => t.region)).headD []) ++ mwSuf
    ∧ ∀ t ∈ successes fs, ∃ f ∈ fs, t.region = strToUpper (leadingToken f.name) := by
  have hprov : ∀ t ∈ successes fs,
      ∃ f ∈ fs, t.region = strToUpper (leadingToken f.name) := by
    intro t ht
    rcases successes_mem fs t ht with ⟨f, hf, hok⟩
    exact ⟨f, hf, loadOne_ok_region f t hok⟩
  have hreg : ∀ t ∈ successes fs, '_' ∉ t.region := by
    intro t ht
    rcases hprov t ht with ⟨f, _, hr⟩
    rw [hr]
    exact underscore_not_mem_strToUpper_leadingToken _
  have hnd : ((successes fs).map (fun t => t.region ++ mwSuf)).Nodup := by
    have hmm : (successes fs).map (fun t => t.region ++ mwSuf)
        = ((successes fs).map (fun t => t.region)).map (fun r => r ++ mwSuf) := by
      rw [List.map_map]
      rfl
    rw [hmm]
    refine hdist.map ?_
    intro a b hab
    exact List.append_cancel_right hab
  have hcols := mergedOf_cols _ _ hnd hm
  have h1 := regionNames_cols _ _ hcols hreg
  exact ⟨h1, by rw [defaultRegionColumn, h1], hprov⟩

/-- The merged table of the two-file sample source set. -/
def mergedSample : MergedTable :=
  ⟨[("PJM_MW").toList, ("AEP_MW").toList],
   [(Cell.dt dtA, [Cell.num 100, Cell.num 50]),
    (Cell.dt dtB, [Cell.num 120, Cell.null])]⟩

/-- Witness for C9: the two-file sample source set yields regions
`[PJM, AEP]` in merge order, with `PJM_MW` the default selection. -/
theorem claim_C9_witness :
    regionNames (allColumns mergedSample) = [("PJM").toList, ("AEP").toList]
    ∧ defaultRegionColumn (allColumns mergedSample) = ("PJM_MW").toList := by
  have h := claim_C9_region_selection [fileTwoCol, fileSuffix] mergedSample
    (by decide) (by rfl)
  constructor
  · rw [h.1]
    rfl
  · rw [h.2.1]
    rfl
